import Mathlib

/-!
Shallow embedding of `src/app.py` (surname extractor).

Python strings are modelled as `List Char` with ASCII semantics for
`str.strip`, `str.lower` and the regex character class `[\s,;/\\]`.
A pandas `DataFrame` is modelled as a list of named columns; a cell value is
the string pandas would compare after `fillna("")`, so a missing cell is `[]`.
`find_matches_in_dataframe` returns the list of selected row indices, which
represents the boolean mask / row subset `df_copy[mask]` of the source.
File parsing (pandas reading byte streams) is external I/O; an input file is
modelled by its parse outcome (`FileInput.parsed`), and for the CSV peek of
the auto-detection step a CSV byte stream is modelled as its list of lines
together with a read cursor (`CsvStream`), with `read_csv` consuming exactly
the lines it parses.
-/

/-- Python strings, modelled as lists of characters. -/
abbrev Str := List Char

/-- The lower-case ASCII letters, used to case-analyse `toLowerChar`. -/
def lowerAZ : List Char :=
  ['a', 'b', 'c', 'd', 'e', 'f', 'g', 'h', 'i', 'j', 'k', 'l', 'm',
   'n', 'o', 'p', 'q', 'r', 's', 't', 'u', 'v', 'w', 'x', 'y', 'z']

/-- The upper-case ASCII letters. -/
def upperAZ : List Char :=
  ['A', 'B', 'C', 'D', 'E', 'F', 'G', 'H', 'I', 'J', 'K', 'L', 'M',
   'N', 'O', 'P', 'Q', 'R', 'S', 'T', 'U', 'V', 'W', 'X', 'Y', 'Z']

/-- ASCII model of Python `str.lower` on a single character: map each
upper-case letter to its lower-case counterpart, fix everything else. -/
def toLowerChar (c : Char) : Char :=
  match (upperAZ.zip lowerAZ).find? (fun p => p.1 == c) with
  | some p => p.2
  | none => c

/-- ASCII model of Python whitespace (the regex class `\s`). -/
def isSpaceChar (c : Char) : Bool :=
  c = ' ' || c = '\t' || c = '\n' || c = '\r' || c = '\x0b' || c = '\x0c'

/-- Python `str.lower`. -/
def pyLower (s : Str) : Str := s.map toLowerChar

/-- Python `str.strip`: remove leading and trailing whitespace. -/
def pyStrip (s : Str) : Str :=
  ((s.dropWhile isSpaceChar).reverse.dropWhile isSpaceChar).reverse

/-- `normalize_text` (app.py lines 113-117): `str(x).strip().lower()`.
Cells are already modelled as strings, so the `str(x)` conversion is the
identity here. -/
def normalize_text (s : Str) : Str := pyLower (pyStrip s)

/-- The separator class of `last_name_token` (app.py line 128):
the regex `[\s,;/\\]`. -/
def isSepChar (c : Char) : Bool :=
  isSpaceChar c || c = ',' || c = ';' || c = '/' || c = '\\'

/-- `re.split` on a character class: split `s` at every character satisfying
`sep`, keeping the (possibly empty) pieces between consecutive separators.
`re.split(r"[X]+", s)` is this followed by discarding empty pieces, which the
source performs itself with `[t for t in tokens if t]`. -/
def reSplit (sep : Char → Bool) : Str → List Str
  | [] => [[]]
  | c :: rest =>
    if sep c then [] :: reSplit sep rest
    else ((c :: (reSplit sep rest).headI) :: (reSplit sep rest).tail)

/-- The non-empty tokens of a string under the `last_name_token` separators. -/
def pyTokens (s : Str) : List Str :=
  (reSplit isSepChar s).filter (fun t => !t.isEmpty)

/-- `last_name_token` (app.py lines 124-130): strip the text, split on runs of
whitespace and `,;/\`, discard empty tokens, and return the lower-cased last
token, or the empty string if no token remains. -/
def last_name_token (text : Str) : Str :=
  match (pyTokens (pyStrip text)).getLast? with
  | some t => pyLower t
  | none => []

/-- Spec-side definition for the refinement claim C4, following the spec's
words: tokens are produced by splitting the cell's original (non-stripped)
text on runs of whitespace and the separators comma, semicolon, slash,
backslash; empty tokens are discarded; the comparison string is the
lower-cased final token, or empty when no tokens remain. -/
def lastTokenSpec (text : Str) : Str :=
  match (pyTokens text).getLast? with
  | some t => pyLower t
  | none => []

/-- Keep-first-occurrence deduplication; models the construction of a Python
`set` (membership is all that matters) and pandas `drop_duplicates`
(keep the first occurrence of each duplicated element, in order). -/
def pyDedup {α : Type} [DecidableEq α] : List α → List α
  | [] => []
  | a :: t => a :: pyDedup (t.filter (fun b => b ≠ a))
termination_by l => l.length
decreasing_by
  simp only [List.length_cons]
  exact Nat.lt_succ_of_le (List.length_filter_le _ t)

/-- `surnames_set` (app.py lines 119-120):
`set([s.strip().lower() for s in surnames if s and str(s).strip()])`. -/
def surnames_set (surnames : List Str) : List Str :=
  pyDedup ((surnames.filter
    (fun s => !s.isEmpty && !(pyStrip s).isEmpty)).map (fun s => pyLower (pyStrip s)))

/-- A dataframe column: its header name, whether its dtype is textual
(`object`/`string`, as selected by `select_dtypes`), and its cells. -/
structure Column where
  name : Str
  isText : Bool
  cells : List Str
deriving DecidableEq

/-- A dataframe: an ordered list of named columns (rows aligned by index). -/
structure DataFrame where
  cols : List Column
deriving DecidableEq

/-- Number of rows, read off the first column (pandas keeps columns aligned). -/
def DataFrame.nrows (df : DataFrame) : Nat :=
  match df.cols with
  | [] => 0
  | c :: _ => c.cells.length

/-- Pandas `df.empty`: true when either axis has length zero. -/
def DataFrame.isEmpty (df : DataFrame) : Bool :=
  df.cols.isEmpty || decide (df.nrows = 0)

/-- The header names of a dataframe, `df.columns`. -/
def columnNames (df : DataFrame) : List Str := df.cols.map (fun c => c.name)

/-- `COMMON_SURNAME_COLS` (app.py lines 99-102), exactly as in the source,
including the repeated `"lastname"` entry. -/
def COMMON_SURNAME_COLS : List Str :=
  ["surname", "last_name", "last name", "lastname", "family_name",
   "family name", "familyname", "lname", "sur_name", "sirname", "surnames",
   "last", "lastname", "name_last", "family"].map String.toList

/-- `list.index`: index of the first occurrence (callers guard membership). -/
def firstIndexOf (l : List Str) (x : Str) : Nat :=
  match l with
  | [] => 0
  | a :: t => if a = x then 0 else firstIndexOf t x + 1

/-- `detect_surname_columns` (app.py lines 103-111): for each candidate in the
fixed list, if it occurs among the lower-cased header names, append the
original-cased header at the first such position. -/
def detect_surname_columns (df : DataFrame) : List Str :=
  COMMON_SURNAME_COLS.foldl
    (fun acc candidate =>
      if candidate ∈ df.cols.map (fun c => pyLower c.name) then
        acc ++ [(columnNames df).getD
          (firstIndexOf (df.cols.map (fun c => pyLower c.name)) candidate) []]
      else acc) []

/-- Atoms of the modelled regex fragment: plain characters and `.`. -/
inductive RAtom where
  | lit (c : Char)
  | dot
deriving DecidableEq

/-- Python regex metacharacters. -/
def isMetaChar (c : Char) : Bool :=
  ['.', '^', '$', '*', '+', '?', '[', ']', '(', ')', '{', '}', '\\', '|'].contains c

/-- Parse a pattern of the modelled regex fragment: plain characters and the
metacharacter `.`; patterns using other metacharacters are outside the
fragment and yield `none` (the theorems below restrict to the fragment). -/
def parsePattern (s : Str) : Option (List RAtom) :=
  if s.any (fun c => isMetaChar c && !(c == '.')) then none
  else some (s.map (fun c => if c == '.' then RAtom.dot else RAtom.lit c))

/-- Whether one regex atom matches one character (`.` matches any character
except a newline, as in `re.search` without `re.DOTALL`). -/
def atomMatch : RAtom → Char → Bool
  | RAtom.lit c, d => c == d
  | RAtom.dot, d => !(d == '\n')

/-- Match a parsed pattern at the start of the subject. -/
def matchHere : List RAtom → Str → Bool
  | [], _ => true
  | _ :: _, [] => false
  | a :: ps, c :: cs => atomMatch a c && matchHere ps cs

/-- `re.search`: try to match the pattern at every start position. -/
def reSearch (p : List RAtom) : Str → Bool
  | [] => matchHere p []
  | c :: cs => matchHere p (c :: cs) || reSearch p cs

/-- Pandas `Series.str.contains(pat, na=False)` applied to one cell: the
default `regex=True` makes this `re.search(pat, cell)`, modelled on the
regex fragment of `parsePattern`. -/
def str_contains (pattern subject : Str) : Bool :=
  match parsePattern pattern with
  | some p => reSearch p subject
  | none => false

/-- Literal substring containment (the spec-side reading of `contains`):
some contiguous run of `hay` equals `needle`. -/
def containsSub (needle : Str) : Str → Bool
  | [] => needle.isEmpty
  | c :: t => needle.isPrefixOf (c :: t) || containsSub needle t

/-- The columns actually scanned (app.py lines 139-142): the named columns
that exist, in the order given, or — when no names are given — every column
of textual dtype. -/
def text_columns (df : DataFrame) (search_columns : List Str) : List Column :=
  if search_columns.isEmpty then df.cols.filter (fun c => c.isText)
  else search_columns.filterMap (fun nm => df.cols.find? (fun c => c.name == nm))

/-- The comparison string of a cell (app.py lines 145-149): the normalized
cell, or — with `last_token_only` — the last token of the original cell. -/
def comparisonString (last_token_only : Bool) (cell : Str) : Str :=
  if last_token_only then last_name_token cell else normalize_text cell

/-- The row mask (app.py lines 145-157): a row is marked when, for some
scanned column, exact mode finds the comparison string in the surname set, or
substring mode finds some non-empty surname via `str.contains`. -/
def rowMask (tcols : List Column) (surnames : List Str)
    (exact substring last_token_only : Bool) (i : Nat) : Bool :=
  tcols.any (fun col =>
    (exact && decide (comparisonString last_token_only (col.cells.getD i []) ∈ surnames)) ||
    (substring && surnames.any (fun s =>
      !s.isEmpty && str_contains s (comparisonString last_token_only (col.cells.getD i [])))))

/-- `find_matches_in_dataframe` (app.py lines 132-158), returning the list of
selected row indices (the rows of `df_copy[mask]`, in original order). -/
def find_matches_in_dataframe (df : DataFrame) (search_columns surnames : List Str)
    (exact substring last_token_only : Bool) : List Nat :=
  if df.isEmpty then []
  else (List.range df.nrows).filter
    (rowMask (text_columns df search_columns) surnames exact substring last_token_only)

/-- The values of row `i`, in column order. -/
def rowAt (df : DataFrame) (i : Nat) : List Str :=
  df.cols.map (fun c => c.cells.getD i [])

/-- A row of the aggregated result: the visible cell values plus the two
provenance columns `__source_file` and `__sheet_name` (app.py lines 215-232). -/
structure TaggedRow where
  values : List Str
  source_file : Str
  sheet_name : Str
deriving DecidableEq

/-- Pandas `DataFrame.drop_duplicates()` (app.py line 242): full-row equality
(all columns, provenance included), keeping the first occurrence. -/
def drop_duplicates (rows : List TaggedRow) : List TaggedRow := pyDedup rows

/-- Spec-side characterization of deduplication: scan the rows in order and
keep each row the first time it is seen. -/
def dedupFirstOccurrence (rows : List TaggedRow) : List TaggedRow :=
  rows.foldl (fun acc r => if r ∈ acc then acc else acc ++ [r]) []

/-- An uploaded data file, modelled by its declared name and the outcome of
parsing it: an error message, or the list of (sheet name, dataframe) pairs
(`pd.read_excel(f, sheet_name=None)`; a CSV yields the single synthetic sheet
`<csv>`). -/
structure FileInput where
  name : Str
  parsed : Except Str (List (Str × DataFrame))

/-- Whether the file parses (the `try` block succeeds). -/
def FileInput.parseOk (f : FileInput) : Bool :=
  match f.parsed with
  | Except.ok _ => true
  | Except.error _ => false

/-- The error report of the handler (app.py line 236):
`st.error(f"Failed to process {fname}: {e}")`. -/
def errMsgFor (fname e : Str) : Str :=
  "Failed to process ".toList ++ fname ++ ": ".toList ++ e

/-- The matched rows of one sheet, stamped with provenance
(app.py lines 213-217 and 229-233). -/
def taggedMatches (sc surnames : List Str) (ex sub lt : Bool)
    (fname sheet : Str) (df : DataFrame) : List TaggedRow :=
  (find_matches_in_dataframe df sc surnames ex sub lt).map
    (fun i => ⟨rowAt df i, fname, sheet⟩)

/-- Processing of one file inside the main loop (app.py lines 207-236): a
parse failure is caught and reported with the file's name; otherwise every
non-empty sheet is matched and its tagged matches collected. Returns the
contributed result rows and the emitted error messages. -/
def processOneFile (sc surnames : List Str) (ex sub lt : Bool)
    (f : FileInput) : List TaggedRow × List Str :=
  match f.parsed with
  | Except.error e => ([], [errMsgFor f.name e])
  | Except.ok sheets =>
    ((sheets.map (fun p =>
      if p.2.isEmpty then [] else taggedMatches sc surnames ex sub lt f.name p.1 p.2)).flatten,
     [])

/-- The main processing loop over a list of files, accumulating result rows
and error messages in input order. -/
def processFiles (sc surnames : List Str) (ex sub lt : Bool)
    (files : List FileInput) : List TaggedRow × List Str :=
  ((files.map (fun f => (processOneFile sc surnames ex sub lt f).1)).flatten,
   (files.map (fun f => (processOneFile sc surnames ex sub lt f).2)).flatten)

/-- The truncation warning of app.py lines 162-163: emitted exactly when more
than 100 files were uploaded. -/
def truncationWarned (files : List FileInput) : Bool :=
  decide (100 < files.length)

/-- The batch entry point (app.py lines 162-164 and 207-238): cap at the
first 100 files, then run the loop. -/
def mainProcess (sc surnames : List Str) (ex sub lt : Bool)
    (files : List FileInput) : List TaggedRow × List Str :=
  processFiles sc surnames ex sub lt (files.take 100)

/-- A CSV byte stream: its lines and the current read position. A fresh
upload starts at position 0; pandas readers advance the position and the
source never seeks back after a successful peek. -/
structure CsvStream where
  lines : List Str
  pos : Nat
deriving DecidableEq

/-- Split a CSV line into fields (naive model, no quoting). -/
def splitCommaLine (l : Str) : List Str := reSplit (fun c => c == ',') l

/-- Build the dataframe of a CSV parse: the first consumed line is the
header, later lines are rows; all columns are textual. -/
def mkDF (header : Str) (rows : List Str) : DataFrame :=
  ⟨(List.range (splitCommaLine header).length).map
    (fun j => ⟨(splitCommaLine header).getD j [], true,
      rows.map (fun r => (splitCommaLine r).getD j [])⟩)⟩

/-- `pd.read_csv(stream)` / `pd.read_csv(stream, nrows=n)`, modelled as
consuming exactly the lines it parses, starting at the current position:
an empty remainder raises (`EmptyDataError`); otherwise one header line plus
all (or at most `n`) data lines are consumed and the position advances. -/
def read_csv (s : CsvStream) (nrows : Option Nat) : Except Str (DataFrame × CsvStream) :=
  match s.lines.drop s.pos with
  | [] => Except.error "No columns to parse from file".toList
  | header :: rest =>
    let rows := match nrows with
      | none => rest
      | some n => rest.take n
    Except.ok (mkDF header rows, ⟨s.lines, s.pos + 1 + rows.length⟩)

/-- The auto-detect peek for a first CSV file (app.py lines 176-205):
`pd.read_csv(first, nrows=50)`; on success the stream position is left where
the peek stopped, on failure the stream is rewound to 0 and no columns are
detected. Empty peeks detect nothing. -/
def auto_detect_peek (first : CsvStream) : List Str × CsvStream :=
  match read_csv first (some 50) with
  | Except.ok pr =>
    (if pr.1.isEmpty then [] else detect_surname_columns pr.1, pr.2)
  | Except.error _ => ([], ⟨first.lines, 0⟩)

/-- The guard around the peek (app.py line 176 and 201-204): the peek runs
only when no search columns were supplied, and its result replaces the
search columns only when non-empty. -/
def maybe_auto_detect (search_columns : List Str) (first : CsvStream) :
    List Str × CsvStream :=
  if search_columns.isEmpty then
    (if (auto_detect_peek first).1.isEmpty then search_columns
     else (auto_detect_peek first).1,
     (auto_detect_peek first).2)
  else (search_columns, first)

/-! Concrete inputs used by the witnesses and counterexamples below. -/

/-- A one-cell text column holding `" Smith "`. -/
def smithColumn : Column := ⟨"Name".toList, true, [" Smith ".toList]⟩

/-- A one-row table whose only column holds `" Smith "`. -/
def dfSmithSpace : DataFrame := ⟨[smithColumn]⟩

/-- A one-cell text column holding `"jo smith"`. -/
def joSmithColumn : Column := ⟨"Name".toList, true, ["jo smith".toList]⟩

/-- A one-row table whose only column holds `"jo smith"`. -/
def dfJoSmith : DataFrame := ⟨[joSmithColumn]⟩

/-- A one-cell text column holding `"abc"`. -/
def abcColumn : Column := ⟨"Name".toList, true, ["abc".toList]⟩

/-- A one-row table whose only column holds `"abc"`. -/
def dfAbc : DataFrame := ⟨[abcColumn]⟩

/-- A result row from file `a.csv`. -/
def rowA : TaggedRow := ⟨["x".toList], "a.csv".toList, "<csv>".toList⟩

/-- A result row with the same visible values as `rowA` but another source. -/
def rowB : TaggedRow := ⟨["x".toList], "b.csv".toList, "<csv>".toList⟩

/-- A raw surname list with whitespace-padded, duplicate and blank entries. -/
def rawSurnames : List Str :=
  [" Smith ".toList, "smith".toList, "".toList, "LEE".toList]

/-- A parsed file containing one matching row `smith`. -/
def fileOk1 : FileInput :=
  ⟨"a.csv".toList, Except.ok [("<csv>".toList, ⟨[⟨"Name".toList, true, ["smith".toList]⟩]⟩)]⟩

/-- A file whose parse fails. -/
def fileBad : FileInput := ⟨"b.xlsx".toList, Except.error "boom".toList⟩

/-- A parsed file containing one matching row `lee`. -/
def fileOk3 : FileInput :=
  ⟨"c.csv".toList, Except.ok [("<csv>".toList, ⟨[⟨"Name".toList, true, ["lee".toList]⟩]⟩)]⟩

/-- The lines of a small three-line CSV file. -/
def wLines : List Str := ["Name".toList, "ann".toList, "bo".toList]

/-! ### Character-level lemmas -/

/-- `toLowerChar` either fixes its argument or maps an upper-case letter to a
lower-case one. -/
theorem toLowerChar_cases (c : Char) :
    toLowerChar c = c ∨ (toLowerChar c ∈ lowerAZ ∧ c ∈ upperAZ) := by
  unfold toLowerChar
  cases hfind : (upperAZ.zip lowerAZ).find? (fun p => p.1 == c) with
  | none => exact Or.inl rfl
  | some p =>
    right
    have hmem := List.mem_of_find?_eq_some hfind
    have hp := List.find?_some hfind
    have hz := List.of_mem_zip hmem
    have hc : p.1 = c := by
      simpa using hp
    exact ⟨hz.2, hc ▸ hz.1⟩

/-- Lower-casing does not change whether a character is whitespace. -/
theorem isSpaceChar_toLowerChar (c : Char) :
    isSpaceChar (toLowerChar c) = isSpaceChar c := by
  rcases toLowerChar_cases c with h | ⟨hl, hu⟩
  · rw [h]
  · have h1 : ∀ d ∈ lowerAZ, isSpaceChar d = false := by decide
    have h2 : ∀ d ∈ upperAZ, isSpaceChar d = false := by decide
    rw [h1 _ hl, h2 _ hu]

/-- Lower-casing a character is idempotent. -/
theorem toLowerChar_idem (c : Char) :
    toLowerChar (toLowerChar c) = toLowerChar c := by
  rcases toLowerChar_cases c with h | ⟨hl, _⟩
  · rw [h, h]
  · have h1 : ∀ d ∈ lowerAZ, toLowerChar d = d := by decide
    exact h1 _ hl

/-- Lower-casing a string is idempotent. -/
theorem pyLower_idem (s : Str) : pyLower (pyLower s) = pyLower s := by
  unfold pyLower
  rw [List.map_map]
  exact List.map_congr_left (fun c _ => toLowerChar_idem c)

/-! ### Tokenizer lemmas -/

/-- `reSplit` always returns at least one piece. -/
theorem reSplit_ne_nil (sep : Char → Bool) (l : Str) : reSplit sep l ≠ [] := by
  cases l with
  | nil => simp [reSplit]
  | cons c t =>
    unfold reSplit
    split <;> simp

/-- Appending a separator appends one empty piece. -/
theorem reSplit_append_sep (sep : Char → Bool) (c : Char) (hc : sep c = true)
    (l : Str) : reSplit sep (l ++ [c]) = reSplit sep l ++ [[]] := by
  induction l with
  | nil => simp [reSplit, hc]
  | cons a t ih =>
    by_cases ha : sep a
    · simp [reSplit, ha, ih]
    · obtain ⟨x, xs, hx⟩ : ∃ x xs, reSplit sep t = x :: xs := by
        cases h : reSplit sep t with
        | nil => exact absurd h (reSplit_ne_nil _ _)
        | cons x xs => exact ⟨x, xs, rfl⟩
      simp [reSplit, ha, ih, hx]

/-- A leading separator contributes no non-empty token. -/
theorem pyTokens_cons_sep (c : Char) (hc : isSepChar c = true) (l : Str) :
    pyTokens (c :: l) = pyTokens l := by
  simp [pyTokens, reSplit, hc]

/-- A trailing separator contributes no non-empty token. -/
theorem pyTokens_append_sep (c : Char) (hc : isSepChar c = true) (l : Str) :
    pyTokens (l ++ [c]) = pyTokens l := by
  unfold pyTokens
  rw [reSplit_append_sep _ _ hc, List.filter_append]
  simp

/-- Whitespace characters are separators. -/
theorem isSepChar_of_space {c : Char} (h : isSpaceChar c = true) :
    isSepChar c = true := by
  simp [isSepChar, h]

/-- Dropping leading whitespace does not change the token list. -/
theorem pyTokens_dropWhile (l : Str) :
    pyTokens (l.dropWhile isSpaceChar) = pyTokens l := by
  induction l with
  | nil => rfl
  | cons a t ih =>
    by_cases ha : isSpaceChar a
    · rw [List.dropWhile_cons_of_pos ha, ih, pyTokens_cons_sep a (isSepChar_of_space ha)]
    · rw [List.dropWhile_cons_of_neg ha]

/-- Dropping trailing whitespace (via reverse) does not change the tokens. -/
theorem pyTokens_rev_dropWhile (m : Str) :
    pyTokens ((m.dropWhile isSpaceChar).reverse) = pyTokens m.reverse := by
  induction m with
  | nil => rfl
  | cons c t ih =>
    by_cases hc : isSpaceChar c
    · rw [List.dropWhile_cons_of_pos hc, ih, List.reverse_cons,
        pyTokens_append_sep c (isSepChar_of_space hc)]
    · rw [List.dropWhile_cons_of_neg hc]

/-- Stripping surrounding whitespace does not change the token list. -/
theorem pyTokens_pyStrip (s : Str) : pyTokens (pyStrip s) = pyTokens s := by
  unfold pyStrip
  have h1 := pyTokens_rev_dropWhile (s.dropWhile isSpaceChar).reverse
  rw [List.reverse_reverse] at h1
  rw [h1, pyTokens_dropWhile]

/-- Claim C4: with `last_token_only`, the comparison string is the
lower-cased final token of the cell's original (non-normalized) text, where
tokens come from splitting on runs of whitespace and `,;/\` with empty tokens
discarded, and is empty when no tokens remain; `"John Smith-Jones"` yields
`"smith-jones"` and `"Doe, Jane"` yields `"jane"` (hyphens do not separate). -/
theorem last_name_token_matches_spec :
    (∀ text : Str, last_name_token text = lastTokenSpec text) ∧
    last_name_token "John Smith-Jones".toList = "smith-jones".toList ∧
    last_name_token "Doe, Jane".toList = "jane".toList ∧
    last_name_token "  ".toList = [] := by
  refine ⟨fun text => ?_, by decide, by decide, by decide⟩
  unfold last_name_token lastTokenSpec
  rw [pyTokens_pyStrip]

/-! ### Deduplication lemmas -/

/-- Unfolding lemma for `pyDedup` on `[]`. -/
theorem pyDedup_nil {α : Type} [DecidableEq α] : pyDedup ([] : List α) = [] := by
  rw [pyDedup]

/-- Unfolding lemma for `pyDedup` on a cons. -/
theorem pyDedup_cons {α : Type} [DecidableEq α] (a : α) (t : List α) :
    pyDedup (a :: t) = a :: pyDedup (t.filter (fun b => b ≠ a)) := by
  rw [pyDedup]

/-- `pyDedup` preserves membership, has no duplicates, and is a sublist. -/
theorem pyDedup_props {α : Type} [DecidableEq α] :
    ∀ (n : Nat) (l : List α), l.length ≤ n →
      (∀ a, (a ∈ pyDedup l ↔ a ∈ l)) ∧ (pyDedup l).Nodup ∧ List.Sublist (pyDedup l) l := by
  intro n
  induction n with
  | zero =>
    intro l hl
    have hnil : l = [] := List.eq_nil_of_length_eq_zero (Nat.le_zero.mp hl)
    subst hnil
    simp [pyDedup_nil]
  | succ n ih =>
    intro l hl
    cases l with
    | nil => simp [pyDedup_nil]
    | cons a t =>
      have hlen : (t.filter (fun b => b ≠ a)).length ≤ n := by
        have h1 := List.length_filter_le (fun b => decide (b ≠ a)) t
        simp only [List.length_cons] at hl
        omega
      obtain ⟨hm, hnd, hs⟩ := ih (t.filter (fun b => b ≠ a)) hlen
      rw [pyDedup_cons]
      refine ⟨?_, ?_, ?_⟩
      · intro x
        simp only [List.mem_cons, hm, List.mem_filter]
        constructor
        · rintro (rfl | ⟨hx, -⟩)
          · exact Or.inl rfl
          · exact Or.inr hx
        · rintro (rfl | hx)
          · exact Or.inl rfl
          · by_cases hxa : x = a
            · exact Or.inl hxa
            · exact Or.inr ⟨hx, by simpa using hxa⟩
      · rw [List.nodup_cons]
        refine ⟨?_, hnd⟩
        intro hmem
        have hflt := (hm a).mp hmem
        rw [List.mem_filter] at hflt
        simpa using hflt.2
      · exact List.Sublist.cons₂ a (hs.trans (List.filter_sublist t))

/-- Membership is unchanged by `pyDedup`. -/
theorem pyDedup_mem {α : Type} [DecidableEq α] (l : List α) (a : α) :
    a ∈ pyDedup l ↔ a ∈ l :=
  (pyDedup_props l.length l le_rfl).1 a

/-- `pyDedup` produces no duplicates. -/
theorem pyDedup_nodup {α : Type} [DecidableEq α] (l : List α) :
    (pyDedup l).Nodup :=
  (pyDedup_props l.length l le_rfl).2.1

/-- `pyDedup` is an order-preserving sublist. -/
theorem pyDedup_sublist {α : Type} [DecidableEq α] (l : List α) :
    List.Sublist (pyDedup l) l :=
  (pyDedup_props l.length l le_rfl).2.2

/-- The fold that collects each element at its first occurrence agrees with
`pyDedup`, relative to an accumulator of already-seen elements. -/
theorem dedup_foldl_general {α : Type} [DecidableEq α] (l : List α) :
    ∀ acc : List α,
      l.foldl (fun acc a => if a ∈ acc then acc else acc ++ [a]) acc
        = acc ++ pyDedup (l.filter (fun b => b ∉ acc)) := by
  induction l with
  | nil =>
    intro acc
    simp [pyDedup_nil]
  | cons a t ih =>
    intro acc
    rw [List.foldl_cons]
    by_cases ha : a ∈ acc
    · rw [if_pos ha, ih]
      have hfa : (a :: t).filter (fun b => b ∉ acc) = t.filter (fun b => b ∉ acc) := by
        simp [List.filter_cons, ha]
      rw [hfa]
    · rw [if_neg ha, ih (acc ++ [a])]
      have hfa : (a :: t).filter (fun b => b ∉ acc) = a :: t.filter (fun b => b ∉ acc) := by
        simp [List.filter_cons, ha]
      rw [hfa, pyDedup_cons, List.filter_filter]
      have hpred : (fun b => decide (b ∉ acc ++ [a]))
          = (fun b => decide (b ≠ a) && decide (b ∉ acc)) := by
        funext b
        by_cases h1 : b = a
        · subst h1; simp
        · by_cases h2 : b ∈ acc <;> simp [h1, h2]
      rw [hpred]
      simp

/-- Claim C6: deduplication of the aggregated result removes exactly the rows
that are identical across every column including the provenance columns,
keeping first occurrences in their original order; in particular two rows
with identical visible values but different `__source_file` are distinct and
both are kept. -/
theorem drop_duplicates_full_row (rows : List TaggedRow) (r₁ r₂ : TaggedRow)
    (h₁ : r₁ ∈ rows) (h₂ : r₂ ∈ rows) (hv : r₁.values = r₂.values)
    (hs : r₁.source_file ≠ r₂.source_file) :
    (∀ r, r ∈ drop_duplicates rows ↔ r ∈ rows) ∧
    (drop_duplicates rows).Nodup ∧
    List.Sublist (drop_duplicates rows) rows ∧
    drop_duplicates rows = dedupFirstOccurrence rows ∧
    r₁ ≠ r₂ ∧
    r₁ ∈ drop_duplicates rows ∧ r₂ ∈ drop_duplicates rows := by
  refine ⟨fun r => pyDedup_mem rows r, pyDedup_nodup rows, pyDedup_sublist rows,
    ?_, ?_, (pyDedup_mem rows r₁).mpr h₁, (pyDedup_mem rows r₂).mpr h₂⟩
  · unfold dedupFirstOccurrence drop_duplicates
    rw [dedup_foldl_general rows []]
    simp
  · intro hr
    exact hs (congrArg TaggedRow.source_file hr)

/-- Witness for C6 at a concrete row list: rows with equal visible values but
different sources are both kept, and the deduplicated list collapses the
repeated first row while keeping first-occurrence order. -/
theorem drop_duplicates_full_row_witness :
    rowA ∈ drop_duplicates [rowA, rowB, rowA] ∧
    rowB ∈ drop_duplicates [rowA, rowB, rowA] ∧
    (drop_duplicates [rowA, rowB, rowA]).Nodup ∧
    drop_duplicates [rowA, rowB, rowA] = dedupFirstOccurrence [rowA, rowB, rowA] := by
  have h := drop_duplicates_full_row [rowA, rowB, rowA] rowA rowB
    (by decide) (by decide) (by decide) (by decide)
  exact ⟨h.2.2.2.2.2.1, h.2.2.2.2.2.2, h.2.1, h.2.2.2.1⟩

/-! ### Ends of stripped strings -/

/-- The head of `dropWhile p` never satisfies `p`. -/
theorem dropWhile_head_not {α : Type} {p : α → Bool} :
    ∀ (l : List α) (c : α), (l.dropWhile p).head? = some c → p c = false := by
  intro l
  induction l with
  | nil =>
    intro c h
    simp at h
  | cons a t ih =>
    intro c h
    by_cases ha : p a
    · rw [List.dropWhile_cons_of_pos ha] at h
      exact ih c h
    · rw [List.dropWhile_cons_of_neg ha] at h
      simp only [List.head?_cons, Option.some.injEq] at h
      subst h
      simpa using ha

/-- The first character of a stripped string is not whitespace. -/
theorem pyStrip_head (s : Str) (c : Char) (h : (pyStrip s).head? = some c) :
    isSpaceChar c = false := by
  unfold pyStrip at h
  rw [List.head?_reverse] at h
  have hsuf : List.IsSuffix ((s.dropWhile isSpaceChar).reverse.dropWhile isSpaceChar)
      ((s.dropWhile isSpaceChar).reverse) := List.dropWhile_suffix isSpaceChar
  obtain ⟨pre, hpre⟩ := hsuf
  have hcat : (pre ++ (s.dropWhile isSpaceChar).reverse.dropWhile isSpaceChar).getLast?
      = some c := by
    rw [List.getLast?_append, h]
    rfl
  rw [hpre, List.getLast?_reverse] at hcat
  exact dropWhile_head_not _ _ hcat

/-- The last character of a stripped string is not whitespace. -/
theorem pyStrip_last (s : Str) (c : Char) (h : (pyStrip s).getLast? = some c) :
    isSpaceChar c = false := by
  unfold pyStrip at h
  rw [List.getLast?_reverse] at h
  exact dropWhile_head_not _ _ h

/-- Claim C5: for every raw target list, the built TargetSet has no
duplicates and no empty members, and every member is lower-case with no
leading or trailing whitespace. -/
theorem surnames_set_normalized (raw : List Str) :
    (surnames_set raw).Nodup ∧
    ∀ m ∈ surnames_set raw,
      m ≠ [] ∧ pyLower m = m ∧
      (∀ c, m.head? = some c → isSpaceChar c = false) ∧
      (∀ c, m.getLast? = some c → isSpaceChar c = false) := by
  constructor
  · exact pyDedup_nodup _
  · intro m hm
    unfold surnames_set at hm
    rw [pyDedup_mem, List.mem_map] at hm
    obtain ⟨s, hsmem, rfl⟩ := hm
    rw [List.mem_filter] at hsmem
    have hguard := hsmem.2
    simp only [Bool.and_eq_true, Bool.not_eq_true', List.isEmpty_eq_false] at hguard
    refine ⟨?_, pyLower_idem _, ?_, ?_⟩
    · intro hh
      exact hguard.2 (by simpa [pyLower] using hh)
    · intro c hc
      rw [pyLower, List.head?_map] at hc
      cases hh : (pyStrip s).head? with
      | none => rw [hh] at hc; simp at hc
      | some d =>
        rw [hh] at hc
        simp only [Option.map_some', Option.some.injEq] at hc
        rw [← hc, isSpaceChar_toLowerChar]
        exact pyStrip_head s d hh
    · intro c hc
      rw [pyLower, List.getLast?_map] at hc
      cases hh : (pyStrip s).getLast? with
      | none => rw [hh] at hc; simp at hc
      | some d =>
        rw [hh] at hc
        simp only [Option.map_some', Option.some.injEq] at hc
        rw [← hc, isSpaceChar_toLowerChar]
        exact pyStrip_last s d hh

/-- Witness for C5 at a concrete raw list with whitespace-padded, duplicate
and blank entries. -/
theorem surnames_set_normalized_witness :
    (surnames_set rawSurnames).Nodup ∧
    "smith".toList ≠ [] ∧ pyLower "smith".toList = "smith".toList := by
  have h := surnames_set_normalized rawSurnames
  have hm : "smith".toList ∈ surnames_set rawSurnames := by
    unfold surnames_set
    rw [pyDedup_mem]
    decide
  exact ⟨h.1, (h.2 _ hm).1, (h.2 _ hm).2.1⟩

/-! ### Substring and regex lemmas -/

/-- A string is a prefix of itself followed by anything. -/
theorem isPrefixOf_self_append (n b : Str) : n.isPrefixOf (n ++ b) = true := by
  induction n with
  | nil => simp
  | cons a t ih =>
    show ((a == a) && t.isPrefixOf (t ++ b)) = true
    simp [ih]

/-- A string that is a prefix is in particular a substring. -/
theorem containsSub_of_isPrefixOf (n s : Str) (h : n.isPrefixOf s = true) :
    containsSub n s = true := by
  cases s with
  | nil =>
    cases n with
    | nil => rfl
    | cons a t => simp at h
  | cons c t =>
    show (n.isPrefixOf (c :: t) || containsSub n t) = true
    rw [h]
    rfl

/-- Substring containment is preserved by extending the haystack in front. -/
theorem containsSub_cons_of (n : Str) (c : Char) (t : Str)
    (h : containsSub n t = true) : containsSub n (c :: t) = true := by
  show (n.isPrefixOf (c :: t) || containsSub n t) = true
  rw [h]
  simp

/-- A string occurs as a literal substring of any surrounding context. -/
theorem containsSub_append_middle (a n b : Str) :
    containsSub n (a ++ n ++ b) = true := by
  induction a with
  | nil =>
    show containsSub n (n ++ b) = true
    exact containsSub_of_isPrefixOf n (n ++ b) (isPrefixOf_self_append n b)
  | cons c t ih =>
    show containsSub n (c :: (t ++ n ++ b)) = true
    exact containsSub_cons_of n c _ ih

/-- On literal patterns, anchored regex matching is the prefix test. -/
theorem matchHere_lit_eq (p : Str) : ∀ s : Str,
    matchHere (p.map RAtom.lit) s = p.isPrefixOf s := by
  induction p with
  | nil => intro s; cases s <;> rfl
  | cons a q ih =>
    intro s
    cases s with
    | nil => rfl
    | cons c t => simp [matchHere, atomMatch, List.isPrefixOf, ih]

/-- On literal patterns, `re.search` is literal substring containment. -/
theorem reSearch_lit_eq (p : Str) : ∀ s : Str,
    reSearch (p.map RAtom.lit) s = containsSub p s := by
  intro s
  induction s with
  | nil =>
    cases p <;> rfl
  | cons c t ih =>
    simp [reSearch, containsSub, matchHere_lit_eq, ih]

/-- For patterns without regex metacharacters, `str.contains` is literal
substring containment. -/
theorem str_contains_eq_containsSub (t s : Str)
    (h : ∀ c ∈ t, isMetaChar c = false) :
    str_contains t s = containsSub t s := by
  unfold str_contains parsePattern
  have hany : t.any (fun c => isMetaChar c && !(c == '.')) = false := by
    rw [List.any_eq_false]
    intro c hc
    simp [h c hc]
  rw [hany]
  have hmap : (t.map fun c => if c == '.' then RAtom.dot else RAtom.lit c)
      = t.map RAtom.lit := by
    apply List.map_congr_left
    intro c hc
    have hdot : (c == '.') = false := by
      by_cases hc' : c = '.'
      · subst hc'
        have := h '.' hc
        simp [isMetaChar] at this
      · simp [hc']
    rw [hdot]
    rfl
  simp only [Bool.false_eq_true, if_false]
  rw [hmap, reSearch_lit_eq]

/-! ### Row-matcher lemmas -/

/-- A row index below `nrows` is selected exactly when the mask marks it. -/
theorem mem_find_matches (df : DataFrame) (sc surnames : List Str)
    (ex sub lt : Bool) (i : Nat) (hi : i < df.nrows) :
    (i ∈ find_matches_in_dataframe df sc surnames ex sub lt) ↔
      rowMask (text_columns df sc) surnames ex sub lt i = true := by
  have hne : df.isEmpty = false := by
    unfold DataFrame.isEmpty
    cases hc : df.cols with
    | nil =>
      exfalso
      have : df.nrows = 0 := by unfold DataFrame.nrows; rw [hc]
      omega
    | cons c cs =>
      have : df.nrows ≠ 0 := by omega
      simp [hc, this]
  unfold find_matches_in_dataframe
  rw [hne]
  simp [List.mem_filter, List.mem_range, hi]

/-- Claim C1 (amended): with substring mode enabled and exact mode disabled,
targets act as regular-expression patterns (`str.contains` with its default
`regex=True`); restricted to TargetSets whose members contain no regex
metacharacters, a row is selected iff the comparison string of some selected
column contains, as a literal substring, some non-empty member of the
TargetSet — in particular an empty-string target never causes a match. -/
theorem substring_mode_literal_iff (df : DataFrame) (sc targets : List Str)
    (lt : Bool) (i : Nat) (hi : i < df.nrows)
    (hmeta : ∀ t ∈ targets, ∀ c ∈ t, isMetaChar c = false) :
    (i ∈ find_matches_in_dataframe df sc targets false true lt) ↔
      ∃ col ∈ text_columns df sc, ∃ t ∈ targets, t ≠ [] ∧
        containsSub t (comparisonString lt (col.cells.getD i [])) = true := by
  rw [mem_find_matches df sc targets false true lt i hi]
  unfold rowMask
  simp only [Bool.false_and, Bool.false_or, Bool.true_and, List.any_eq_true,
    Bool.and_eq_true, Bool.not_eq_true', List.isEmpty_eq_false]
  constructor
  · rintro ⟨col, hcol, t, ht, hne, hc⟩
    rw [str_contains_eq_containsSub t _ (hmeta t ht)] at hc
    exact ⟨col, hcol, t, ht, hne, hc⟩
  · rintro ⟨col, hcol, t, ht, hne, hc⟩
    rw [← str_contains_eq_containsSub t _ (hmeta t ht)] at hc
    exact ⟨col, hcol, t, ht, hne, hc⟩

/-- Witness for the amended C1 at a concrete table and target. -/
theorem substring_mode_literal_iff_witness :
    (0 ∈ find_matches_in_dataframe dfJoSmith ["Name".toList] ["smith".toList]
      false true false) ↔
      ∃ col ∈ text_columns dfJoSmith ["Name".toList], ∃ t ∈ (["smith".toList] : List Str),
        t ≠ [] ∧ containsSub t (comparisonString false (col.cells.getD 0 [])) = true :=
  substring_mode_literal_iff dfJoSmith ["Name".toList] ["smith".toList] false 0
    (by decide) (by decide)

/-- Counterexample to C1 as stated: with the target `"."` (a TargetSet
member containing a regex metacharacter), row 0 of the table with cell
`"abc"` is selected, although no non-empty target occurs in the comparison
string as a literal substring. -/
theorem substring_regex_counterexample :
    (0 ∈ find_matches_in_dataframe dfAbc ["Name".toList] [['.']] false true false) ∧
    (∀ col ∈ text_columns dfAbc ["Name".toList], ∀ t ∈ ([['.']] : List Str),
      ¬(t ≠ [] ∧ containsSub t (comparisonString false (col.cells.getD 0 [])) = true)) := by
  decide

/-- The normalized form of a kept raw target is a member of the TargetSet. -/
theorem normalize_mem_surnames_set (raw : List Str) (t : Str)
    (ht : t ∈ raw) (hstrip : pyStrip t ≠ []) :
    normalize_text t ∈ surnames_set raw := by
  unfold surnames_set
  rw [pyDedup_mem, List.mem_map]
  refine ⟨t, ?_, rfl⟩
  rw [List.mem_filter]
  refine ⟨ht, ?_⟩
  have htne : t ≠ [] := by
    intro hh
    subst hh
    exact hstrip rfl
  simp [htne, hstrip]

/-- Claim C3: exact-mode matching is case- and whitespace-insensitive: a
cell whose trimmed lower-cased value equals the trimmed lower-cased form of
some raw target selects the row. -/
theorem exact_mode_insensitive (df : DataFrame) (sc raw : List Str)
    (sub : Bool) (col : Column) (i : Nat) (t : Str)
    (hi : i < df.nrows) (hcol : col ∈ text_columns df sc)
    (ht : t ∈ raw) (hstrip : pyStrip t ≠ [])
    (heq : normalize_text (col.cells.getD i []) = normalize_text t) :
    i ∈ find_matches_in_dataframe df sc (surnames_set raw) true sub false := by
  rw [mem_find_matches df sc (surnames_set raw) true sub false i hi]
  unfold rowMask
  rw [List.any_eq_true]
  refine ⟨col, hcol, ?_⟩
  have hmem : comparisonString false (col.cells.getD i []) ∈ surnames_set raw := by
    unfold comparisonString
    rw [if_neg (by simp)]
    rw [heq]
    exact normalize_mem_surnames_set raw t ht hstrip
  rw [Bool.or_eq_true]
  left
  rw [Bool.true_and]
  exact decide_eq_true hmem

/-- Witness for C3: the cell `" Smith "` matches the raw target `"smith"`. -/
theorem exact_mode_insensitive_witness :
    0 ∈ find_matches_in_dataframe dfSmithSpace []
      (surnames_set ["smith".toList]) true false false :=
  exact_mode_insensitive dfSmithSpace [] ["smith".toList] false smithColumn 0
    "smith".toList (by decide) (by decide) (by decide) (by decide) (by decide)

/-- Claim C7: with no rows, or no selected columns, or an empty TargetSet,
the Row Matcher returns an empty match set (and, being total, cannot raise). -/
theorem find_matches_empty_inputs (df : DataFrame) (sc surnames : List Str)
    (ex sub lt : Bool)
    (h : df.nrows = 0 ∨ df.cols = [] ∨ text_columns df sc = [] ∨ surnames = []) :
    find_matches_in_dataframe df sc surnames ex sub lt = [] := by
  unfold find_matches_in_dataframe
  by_cases he : df.isEmpty
  · simp [he]
  · have he' : df.isEmpty = false := by simpa using he
    rw [he']
    simp only [Bool.false_eq_true, if_false]
    rcases h with h | h | h | h
    · exfalso
      apply he
      unfold DataFrame.isEmpty
      simp [h]
    · exfalso
      apply he
      unfold DataFrame.isEmpty
      simp [h]
    · rw [List.filter_eq_nil_iff]
      intro i _
      simp [rowMask, h]
    · subst h
      rw [List.filter_eq_nil_iff]
      intro i _
      simp [rowMask]

/-- Witness for C7: an empty TargetSet yields an empty match set on a
non-empty table. -/
theorem find_matches_empty_inputs_witness :
    find_matches_in_dataframe dfAbc ["Name".toList] [] true true false = [] :=
  find_matches_empty_inputs dfAbc ["Name".toList] [] true true false
    (Or.inr (Or.inr (Or.inr rfl)))

/-- Claim C2 (code evaluation): the Column Detector does return candidates in
fixed-list order with original casing, but because `COMMON_SURNAME_COLS`
lists `"lastname"` twice, the header list `["LastName"]` produces the result
`["LastName", "LastName"]` — a duplicate, contradicting the claim. -/
theorem detect_surname_columns_duplicate :
    detect_surname_columns ⟨[⟨"ID".toList, true, []⟩, ⟨"Last Name".toList, true, []⟩,
      ⟨"Age".toList, true, []⟩]⟩ = ["Last Name".toList] ∧
    detect_surname_columns ⟨[⟨"LastName".toList, true, []⟩]⟩
      = ["LastName".toList, "LastName".toList] ∧
    ¬(detect_surname_columns ⟨[⟨"LastName".toList, true, []⟩]⟩).Nodup := by
  decide

/-! ### Aggregator lemmas -/

/-- A file that parses emits no error message. -/
theorem processOneFile_ok (sc surnames : List Str) (ex sub lt : Bool)
    (f : FileInput) (h : f.parseOk = true) :
    (processOneFile sc surnames ex sub lt f).2 = [] := by
  unfold processOneFile
  cases hp : f.parsed with
  | error e =>
    unfold FileInput.parseOk at h
    rw [hp] at h
    simp at h
  | ok sheets => rfl

/-- Claim C8: one failing file is caught and reported with its name, while
the remaining files are processed normally: their matches all appear, in
order, and the failing file contributes exactly its one error message, which
names the file. -/
theorem per_file_failure_isolated (sc targets : List Str) (ex sub lt : Bool)
    (pre post : List FileInput) (bad : FileInput) (e : Str)
    (hbad : bad.parsed = Except.error e)
    (hok : ∀ f ∈ pre ++ post, f.parseOk = true)
    (hlen : (pre ++ bad :: post).length ≤ 100) :
    (mainProcess sc targets ex sub lt (pre ++ bad :: post)).2
      = [errMsgFor bad.name e] ∧
    (mainProcess sc targets ex sub lt (pre ++ bad :: post)).1
      = (processFiles sc targets ex sub lt pre).1
        ++ (processFiles sc targets ex sub lt post).1 ∧
    containsSub bad.name (errMsgFor bad.name e) = true := by
  have htake : (pre ++ bad :: post).take 100 = pre ++ bad :: post :=
    List.take_of_length_le hlen
  unfold mainProcess
  rw [htake]
  have hbad1 : (processOneFile sc targets ex sub lt bad).1 = [] := by
    unfold processOneFile
    rw [hbad]
  have hbad2 : (processOneFile sc targets ex sub lt bad).2 = [errMsgFor bad.name e] := by
    unfold processOneFile
    rw [hbad]
  have hpre2 : (pre.map (fun f => (processOneFile sc targets ex sub lt f).2)).flatten = [] := by
    rw [List.flatten_eq_nil_iff]
    intro x hx
    rw [List.mem_map] at hx
    obtain ⟨f, hf, rfl⟩ := hx
    exact processOneFile_ok sc targets ex sub lt f (hok f (List.mem_append.mpr (Or.inl hf)))
  have hpost2 : (post.map (fun f => (processOneFile sc targets ex sub lt f).2)).flatten = [] := by
    rw [List.flatten_eq_nil_iff]
    intro x hx
    rw [List.mem_map] at hx
    obtain ⟨f, hf, rfl⟩ := hx
    exact processOneFile_ok sc targets ex sub lt f (hok f (List.mem_append.mpr (Or.inr hf)))
  refine ⟨?_, ?_, ?_⟩
  · unfold processFiles
    simp only [List.map_append, List.map_cons, List.flatten_append, List.flatten_cons]
    rw [hbad2, hpre2, hpost2]
    simp
  · unfold processFiles
    simp only [List.map_append, List.map_cons, List.flatten_append, List.flatten_cons]
    rw [hbad1]
    simp
  · unfold errMsgFor
    rw [List.append_assoc]
    exact containsSub_append_middle _ _ _

/-- Witness for C8: of three files where the second is corrupt, the matches
of files 1 and 3 appear, exactly one error is reported, and it names file 2. -/
theorem per_file_failure_isolated_witness :
    (mainProcess ["Name".toList] ["smith".toList, "lee".toList] true false false
      [fileOk1, fileBad, fileOk3]).2 = [errMsgFor fileBad.name "boom".toList] ∧
    (mainProcess ["Name".toList] ["smith".toList, "lee".toList] true false false
      [fileOk1, fileBad, fileOk3]).1
      = (processFiles ["Name".toList] ["smith".toList, "lee".toList] true false false
          [fileOk1]).1
        ++ (processFiles ["Name".toList] ["smith".toList, "lee".toList] true false false
          [fileOk3]).1 ∧
    (processFiles ["Name".toList] ["smith".toList, "lee".toList] true false false
      [fileOk1]).1 ≠ [] := by
  have h := per_file_failure_isolated ["Name".toList] ["smith".toList, "lee".toList]
    true false false [fileOk1] [fileOk3] fileBad "boom".toList rfl (by decide) (by decide)
  exact ⟨h.1, h.2.1, by decide⟩

/-- Claim C9: only the first 100 files are processed; the truncation warning
fires exactly when more than 100 files were supplied, and batches of at most
100 files are processed whole. -/
theorem file_cap_hundred (sc targets : List Str) (ex sub lt : Bool)
    (files : List FileInput) :
    mainProcess sc targets ex sub lt files
      = processFiles sc targets ex sub lt (files.take 100) ∧
    (truncationWarned files = true ↔ 100 < files.length) ∧
    (files.length ≤ 100 → files.take 100 = files) ∧
    (100 < files.length → (files.take 100).length = 100) := by
  refine ⟨rfl, ?_, ?_, ?_⟩
  · unfold truncationWarned
    exact ⟨of_decide_eq_true, decide_eq_true⟩
  · intro h
    exact List.take_of_length_le h
  · intro h
    rw [List.length_take]
    omega

/-- Witness for C9: a batch of 101 files is truncated to 100 and warned
about; a batch of one file is processed whole. -/
theorem file_cap_hundred_witness :
    ((List.replicate 101 fileOk1).take 100).length = 100 ∧
    [fileOk1].take 100 = [fileOk1] ∧
    truncationWarned (List.replicate 101 fileOk1) = true := by
  have h1 := file_cap_hundred [] [] true false false (List.replicate 101 fileOk1)
  have h2 := file_cap_hundred [] [] true false false [fileOk1]
  have hlen : (List.replicate 101 fileOk1).length = 101 :=
    List.length_replicate 101 fileOk1
  exact ⟨h1.2.2.2 (by rw [hlen]; omega), h2.2.2.1 (by decide),
    h1.2.1.mpr (by rw [hlen]; omega)⟩

/-! ### CSV peek lemmas -/

/-- The parsed dataframe has exactly the consumed data lines as rows. -/
theorem nrows_mkDF (header : Str) (rows : List Str) :
    (mkDF header rows).nrows = rows.length := by
  obtain ⟨x, xs, hx⟩ : ∃ x xs, splitCommaLine header = x :: xs := by
    cases h : splitCommaLine header with
    | nil => exact absurd h (reSplit_ne_nil _ _)
    | cons x xs => exact ⟨x, xs, rfl⟩
  unfold mkDF DataFrame.nrows
  rw [hx, List.length_cons, List.range_succ_eq_map]
  simp

/-- Claim C10: with no explicit search columns and a CSV first file, the
auto-detect peek reads up to 50 rows (plus the header) and leaves the stream
at the post-peek position; the subsequent full parse of the same file starts
there, not at the beginning, and differs from a parse from the beginning
whenever the file has at least one data line. -/
theorem csv_peek_stream_position (lines : List Str) (h : lines ≠ []) :
    (maybe_auto_detect [] ⟨lines, 0⟩).2 = ⟨lines, min 51 lines.length⟩ ∧
    0 < (maybe_auto_detect [] ⟨lines, 0⟩).2.pos ∧
    (2 ≤ lines.length →
      read_csv (maybe_auto_detect [] ⟨lines, 0⟩).2 none ≠ read_csv ⟨lines, 0⟩ none) := by
  obtain ⟨h₀, rest, rfl⟩ := List.exists_cons_of_ne_nil h
  have hread : read_csv ⟨h₀ :: rest, 0⟩ (some 50)
      = Except.ok (mkDF h₀ (rest.take 50),
          ⟨h₀ :: rest, 0 + 1 + (rest.take 50).length⟩) := by
    unfold read_csv
    rfl
  have hpeek : auto_detect_peek ⟨h₀ :: rest, 0⟩
      = (if (mkDF h₀ (rest.take 50)).isEmpty then []
         else detect_surname_columns (mkDF h₀ (rest.take 50)),
         ⟨h₀ :: rest, 0 + 1 + (rest.take 50).length⟩) := by
    unfold auto_detect_peek
    rw [hread]
  have hkey : (maybe_auto_detect [] ⟨h₀ :: rest, 0⟩).2
      = ⟨h₀ :: rest, min 51 (h₀ :: rest).length⟩ := by
    unfold maybe_auto_detect
    rw [if_pos (show ([] : List Str).isEmpty = true from rfl)]
    show (auto_detect_peek ⟨h₀ :: rest, 0⟩).2 = _
    rw [hpeek]
    refine congrArg (CsvStream.mk (h₀ :: rest)) ?_
    rw [List.length_take, List.length_cons]
    omega
  refine ⟨hkey, ?_, ?_⟩
  · rw [hkey]
    show 0 < min 51 (h₀ :: rest).length
    rw [List.length_cons]
    omega
  · intro hlen heq
    rw [hkey] at heq
    have hR : read_csv ⟨h₀ :: rest, 0⟩ none
        = Except.ok (mkDF h₀ rest, ⟨h₀ :: rest, 0 + 1 + rest.length⟩) := by
      unfold read_csv
      rfl
    have hlen' : (h₀ :: rest).length = rest.length + 1 := List.length_cons h₀ rest
    rcases le_or_lt (h₀ :: rest).length 51 with hle | hgt
    · have hmin : min 51 (h₀ :: rest).length = (h₀ :: rest).length := by omega
      rw [hmin] at heq
      have hL : read_csv ⟨h₀ :: rest, (h₀ :: rest).length⟩ none
          = Except.error "No columns to parse from file".toList := by
        unfold read_csv
        rw [List.drop_length]
      rw [hL, hR] at heq
      simp at heq
    · have hmin : min 51 (h₀ :: rest).length = 51 := by omega
      rw [hmin] at heq
      have hdne : (h₀ :: rest).drop 51 ≠ [] := by
        intro hh
        have hlh := congrArg List.length hh
        rw [List.length_drop] at hlh
        simp only [List.length_nil] at hlh
        omega
      obtain ⟨d, ds, hds⟩ := List.exists_cons_of_ne_nil hdne
      have hL : read_csv ⟨h₀ :: rest, 51⟩ none
          = Except.ok (mkDF d ds, ⟨h₀ :: rest, 51 + 1 + ds.length⟩) := by
        unfold read_csv
        rw [hds]
      rw [hL, hR] at heq
      simp only [Except.ok.injEq, Prod.mk.injEq] at heq
      have hnr := congrArg DataFrame.nrows heq.1
      rw [nrows_mkDF, nrows_mkDF] at hnr
      have hlh := congrArg List.length hds
      simp only [List.length_drop, List.length_cons] at hlh hgt
      omega

/-- Witness for C10 at a concrete three-line CSV: the peek consumes all three
lines, the position is not reset, and the main parse differs from a parse
from the beginning. -/
theorem csv_peek_stream_position_witness :
    (maybe_auto_detect [] ⟨wLines, 0⟩).2 = ⟨wLines, min 51 wLines.length⟩ ∧
    0 < (maybe_auto_detect [] ⟨wLines, 0⟩).2.pos ∧
    read_csv (maybe_auto_detect [] ⟨wLines, 0⟩).2 none ≠ read_csv ⟨wLines, 0⟩ none := by
  have h := csv_peek_stream_position wLines (by decide)
  exact ⟨h.1, h.2.1, h.2.2 (by decide)⟩
